import Mathlib

/-!
# Verification of the obsidian-bases-paginator derived-view state engine

Shallow embedding of the plugin's core state engine:

* `PaginationService` (src/src/services/PaginationService.ts) together with the
  arithmetic helpers `calculateTotalPages` and `clamp`
  (src/src/utils/helpers.ts);
* `FilterService` (src/src/services/FilterService.ts): search / quick filters /
  column filters / preset CRUD and its JSON persistence
  (`loadPresets` / `savePresetsToJson` built on `safeJsonParse` and
  `JSON.stringify`);
* the client-side sort of `PaginatedTableView.ts` (`sortEntries`,
  `isEmptyValue`, `compareValues`) and the `naturalCompare` helper.

JavaScript numbers are modelled as `Int` (all the numbers the engine
manipulates are integers: page numbers, page sizes, item counts, timestamps).
Records (`BasesEntry`) are modelled as association lists from property ids to
an explicit `Value` sum type; `getValue` of an absent property is the
JavaScript `null`, modelled by `Value.vnull`.
-/

namespace BasesPaginator

/-- Ceiling division on integers for a positive divisor, the value of the
JavaScript `Math.ceil(a / b)` when `a`, `b` are integers and `b > 0`. -/
def ceilDiv (a b : Int) : Int := (a + b - 1) / b

/-- Embedding of `clamp` (src/src/utils/helpers.ts):
`Math.min(Math.max(value, min), max)`. -/
def clamp (value lo hi : Int) : Int := min (max value lo) hi

/-- Embedding of `calculateTotalPages` (src/src/utils/helpers.ts):
`if (pageSize <= 0) return 1; return Math.max(1, Math.ceil(totalItems / pageSize))`. -/
def calculateTotalPages (totalItems pageSize : Int) : Int :=
  if pageSize ≤ 0 then 1 else max 1 (ceilDiv totalItems pageSize)

/-- The `PaginationState` record of src/src/types.ts, as held by
`PaginationService`. -/
structure PaginationState where
  currentPage : Int
  pageSize : Int
  totalItems : Int
  totalPages : Int
deriving Repr, DecidableEq

/-- Initial state built by the `PaginationService` constructor
(`DEFAULT_PAGE_SIZE = 25` from src/src/utils/constants.ts). -/
def PaginationService.initial : PaginationState :=
  { currentPage := 1, pageSize := 25, totalItems := 0, totalPages := 1 }

/-- Embedding of `PaginationService.setPageSize`. The boolean records whether
the `onChange` callback was invoked. -/
def setPageSize (s : PaginationState) (size : Int) : PaginationState × Bool :=
  if size ≤ 0 then (s, false)
  else
    let totalPages := calculateTotalPages s.totalItems size
    ({ s with
        pageSize := size
        totalPages := totalPages
        currentPage := clamp s.currentPage 1 totalPages }, true)

/-- Embedding of `PaginationService.setTotalItems` (never signals change). -/
def setTotalItems (s : PaginationState) (total : Int) : PaginationState :=
  let totalPages := calculateTotalPages total s.pageSize
  { s with
      totalItems := total
      totalPages := totalPages
      currentPage := clamp s.currentPage 1 totalPages }

/-- Embedding of `PaginationService.goToPage`. The boolean records whether the
`onChange` callback was invoked (only when the clamped page differs). -/
def goToPage (s : PaginationState) (page : Int) : PaginationState × Bool :=
  let newPage := clamp page 1 s.totalPages
  if newPage ≠ s.currentPage then ({ s with currentPage := newPage }, true)
  else (s, false)

/-- Embedding of `PaginationService.resetToFirst`. -/
def resetToFirst (s : PaginationState) : PaginationState :=
  { s with currentPage := 1 }

/-- The pagination invariant of the spec: `totalPages` is the clamped ceiling
of `totalItems / pageSize` and `currentPage` lies in `[1, totalPages]`. -/
def PagInv (s : PaginationState) : Prop :=
  s.totalPages = max 1 (ceilDiv s.totalItems s.pageSize) ∧
    1 ≤ s.currentPage ∧ s.currentPage ≤ s.totalPages

instance (s : PaginationState) : Decidable (PagInv s) := by
  unfold PagInv; infer_instance

/-- `calculateTotalPages` always returns at least one page. -/
theorem one_le_calculateTotalPages (t p : Int) : 1 ≤ calculateTotalPages t p := by
  unfold calculateTotalPages
  split <;> omega

/-- `clamp` lands in `[lo, hi]` whenever the interval is non-empty. -/
theorem clamp_mem (v lo hi : Int) (h : lo ≤ hi) :
    lo ≤ clamp v lo hi ∧ clamp v lo hi ≤ hi := by
  unfold clamp
  omega

/-- C1: for every `pageSize > 0` and `totalItems ≥ 0`, each of the mutations
`setPageSize`, `setTotalItems` and `goToPage`, applied to a state satisfying
the pagination invariant, yields a state with
`totalPages = max 1 (ceil (totalItems / pageSize))` and
`1 ≤ currentPage ≤ totalPages`. -/
theorem pagination_mutations_preserve_invariant
    (s : PaginationState) (n m p : Int)
    (hps : 0 < s.pageSize) (hti : 0 ≤ s.totalItems) (hm : 0 ≤ m)
    (hinv : PagInv s) :
    PagInv (setPageSize s n).1 ∧ PagInv (setTotalItems s m) ∧
      PagInv (goToPage s p).1 := by
  obtain ⟨heq, hlo, hhi⟩ := hinv
  refine ⟨?_, ?_, ?_⟩
  · unfold setPageSize
    split
    · exact ⟨heq, hlo, hhi⟩
    · rename_i hn
      have h1 : 1 ≤ calculateTotalPages s.totalItems n :=
        one_le_calculateTotalPages _ _
      have hc := clamp_mem s.currentPage 1 (calculateTotalPages s.totalItems n) h1
      refine ⟨?_, hc.1, hc.2⟩
      simp only [calculateTotalPages, if_neg hn]
  · unfold setTotalItems
    have h1 : 1 ≤ calculateTotalPages m s.pageSize :=
      one_le_calculateTotalPages _ _
    have hc := clamp_mem s.currentPage 1 (calculateTotalPages m s.pageSize) h1
    refine ⟨?_, hc.1, hc.2⟩
    simp only [calculateTotalPages, if_neg (by omega : ¬ s.pageSize ≤ 0)]
  · unfold goToPage
    have hc := clamp_mem p 1 s.totalPages (by omega)
    simp only []
    split
    · exact ⟨heq, hc.1, hc.2⟩
    · exact ⟨heq, hlo, hhi⟩

/-- Witness for C1 at the concrete state
`{currentPage := 2, pageSize := 25, totalItems := 120, totalPages := 5}` with
`setPageSize 10`, `setTotalItems 7`, `goToPage 3`. -/
theorem pagination_mutations_preserve_invariant_witness :
    let s : PaginationState :=
      { currentPage := 2, pageSize := 25, totalItems := 120, totalPages := 5 }
    PagInv (setPageSize s 10).1 ∧ PagInv (setTotalItems s 7) ∧
      PagInv (goToPage s 3).1 :=
  pagination_mutations_preserve_invariant _ 10 7 3
    (by decide) (by decide) (by decide) (by decide)

/-- C9: for `n ≤ 0`, `setPageSize n` leaves the whole pagination state
unchanged and emits no change signal. -/
theorem setPageSize_nonpositive_noop (s : PaginationState) (n : Int)
    (hn : n ≤ 0) : setPageSize s n = (s, false) := by
  simp [setPageSize, hn]

/-- Witness for C9 at `n = 0` and `n = -3` on the initial state. -/
theorem setPageSize_nonpositive_noop_witness :
    setPageSize PaginationService.initial 0 = (PaginationService.initial, false) ∧
      setPageSize PaginationService.initial (-3) =
        (PaginationService.initial, false) :=
  ⟨setPageSize_nonpositive_noop _ 0 (by decide),
    setPageSize_nonpositive_noop _ (-3) (by decide)⟩

/-! ## Values and their normalization (src/src/utils/helpers.ts) -/

/-- The sum type of property values the engine can receive from the host
(spec §3 / §9): absent (`null`/`undefined`, collapsed), strings, integer
numbers, booleans, dates (timestamp plus the host's locale display string),
link-like objects (`{path, display?}`) and lists. -/
inductive Value where
  | vnull
  | vstring (s : String)
  | vnumber (n : Int)
  | vbool (b : Bool)
  | vdate (ts : Int) (display : String)
  | vlink (path : String) (display : Option String)
  | vlist (elems : List Value)

mutual

/-- Embedding of `valueToString` (src/src/utils/helpers.ts): `null` → `""`,
strings literal, numbers/booleans via `String(..)`, dates via their locale
display string, arrays comma-joined, link objects `display ?? path`. -/
def valueToString : Value → String
  | .vnull => ""
  | .vstring s => s
  | .vnumber n => toString n
  | .vbool b => cond b "true" "false"
  | .vdate _ display => display
  | .vlink path display => display.getD path
  | .vlist es => String.intercalate ", " (valueListToStrings es)

/-- String forms of a list of values, elementwise `valueToString`. -/
def valueListToStrings : List Value → List String
  | [] => []
  | v :: vs => valueToString v :: valueListToStrings vs

end

/-- Whitespace test used by the comma-split trimming (models the JavaScript
`String.prototype.trim` on the ASCII whitespace the engine encounters). -/
def isWhitespaceChar (c : Char) : Bool :=
  c = ' ' || c = '\t' || c = '\n' || c = '\r'

/-- Trim leading and trailing whitespace from a character list. -/
def trimChars (cs : List Char) : List Char :=
  ((cs.dropWhile isWhitespaceChar).reverse.dropWhile isWhitespaceChar).reverse

/-- Emit one trimmed segment, dropping it when blank, as the comma-split loop
does (`if (trimmed) items.push(trimmed)`). -/
def emitSegment (current : List Char) : List String :=
  let t := trimChars current
  if t.isEmpty then [] else [String.mk t]

/-- Splitting loop of the bracket-respecting comma split: walks the characters
tracking `[[`/`]]` depth (each overlapping pair steps the depth, which is a
JavaScript number and may go negative) and splits on commas only at depth
zero. Mirrors the loop of `parseCommaSeparated` (src/src/utils/helpers.ts). -/
def splitLoop : List Char → Int → List Char → List String
  | [], _, current => emitSegment current
  | c :: rest, depth, current =>
    if c = '[' ∧ rest.head? = some '[' then
      splitLoop rest (depth + 1) (current ++ [c])
    else if c = ']' ∧ rest.head? = some ']' then
      splitLoop rest (depth - 1) (current ++ [c])
    else if c = ',' ∧ depth = 0 then
      emitSegment current ++ splitLoop rest depth []
    else splitLoop rest depth (current ++ [c])

/-- Modelled from the spec: the helper `splitMultiValues` imported by
`FilterService.extractAllValues` is code of this repository that is not under
src/ (only its callers are). It is modelled from the spec's decomposition
contract — §4.1: an encoded multi-value string is split on commas respecting
`[[..]]` bracket nesting, a scalar yields a single-element array; §4.3: an
empty value is represented as the single empty-string atom `[""]` — following
the loop structure of the in-repo predecessor `parseCommaSeparated`
(src/src/utils/helpers.ts). -/
def splitMultiValues (s : String) : List String :=
  let items := splitLoop s.data 0 []
  if items.isEmpty then [""] else items

/-- Modelled from the spec: the helper `isArrayLike` is not under src/;
per §4.1 a multi-value container (list property) is the array-like case. -/
def isArrayLike : Value → Bool
  | .vlist _ => true
  | _ => false

/-- Modelled from the spec: the helper `toArray` is not under src/; it yields
the elements of a multi-value container (§4.1: one string per element). -/
def toArray : Value → List Value
  | .vlist es => es
  | v => [v]

/-- Embedding of `FilterService.extractAllValues`
(src/src/services/FilterService.ts lines 571–581): `null`/`undefined` →
`[""]`, array-like values map `valueToString` over their elements, everything
else is string-converted and split as a multi-value string. -/
def extractAllValues (v : Value) : List String :=
  match v with
  | .vnull => [""]
  | _ =>
    if isArrayLike v then (toArray v).map valueToString
    else splitMultiValues (valueToString v)

/-- A record handed to the engine: embedding of `BasesEntry`, an opaque
identity (backing file path) plus the `getValue` accessor, modelled as an
association list of property values. -/
structure Entry where
  path : String
  values : List (String × Value)

/-- Embedding of `entry.getValue(propertyId)`: the stored value, or the
JavaScript `null` (here `Value.vnull`) when the property is absent. -/
def Entry.getValue (e : Entry) (propId : String) : Value :=
  (e.values.find? (fun pv => pv.1 = propId)).map (·.2) |>.getD .vnull

/-! ## FilterService (src/src/services/FilterService.ts) -/

/-- The quick-filter operator union type of src/src/types.ts. -/
inductive FilterOperator where
  | equals
  | contains
  | not_equals
deriving Repr, DecidableEq

/-- The `QuickFilter` record of src/src/types.ts. -/
structure QuickFilter where
  propertyId : String
  value : String
  operator : FilterOperator
deriving Repr, DecidableEq

/-- The `FilterPreset` record of src/src/types.ts: optional fields are
`Option`, the `columnFilters` plain object is an insertion-ordered
association list. -/
structure FilterPreset where
  id : String
  name : String
  filters : List QuickFilter
  searchQuery : Option String
  columnFilters : Option (List (String × List String))
  pageSize : Option Int
  currentPage : Option Int
deriving Repr, DecidableEq

/-- The `PresetPagination` record of src/src/types.ts. -/
structure PresetPagination where
  pageSize : Int
  currentPage : Int
deriving Repr, DecidableEq

/-- The whole private state of one `FilterService` instance: the
`FilterState` record (`searchQuery`, `quickFilters`, `activePresetId`) plus
the `presets` list, the `columnFilters` map (insertion-ordered, as a
JavaScript `Map`) and the `visibleProperties` list. -/
structure FilterServiceState where
  searchQuery : String
  quickFilters : List QuickFilter
  activePresetId : Option String
  presets : List FilterPreset
  columnFilters : List (String × List String)
  visibleProperties : List String
deriving Repr, DecidableEq

/-- State built by the `FilterService` constructor. -/
def FilterService.initial : FilterServiceState :=
  { searchQuery := "", quickFilters := [], activePresetId := none,
    presets := [], columnFilters := [], visibleProperties := [] }

/-- Embedding of `Map.prototype.set` on the insertion-ordered association
list: an existing key is overwritten in place, a new key is appended. -/
def mapSet (m : List (String × List String)) (k : String) (v : List String) :
    List (String × List String) :=
  if m.any (fun p => p.1 = k) then
    m.map (fun p => if p.1 = k then (k, v) else p)
  else m ++ [(k, v)]

/-- Embedding of `Map.prototype.delete` on the association list. -/
def mapDelete (m : List (String × List String)) (k : String) :
    List (String × List String) :=
  m.filter (fun p => p.1 ≠ k)

/-- Embedding of `FilterService.setSearchQuery` (lines 305–309). -/
def setSearchQuery (s : FilterServiceState) (query : String) :
    FilterServiceState :=
  { s with searchQuery := query, activePresetId := none }

/-- Embedding of `FilterService.addQuickFilter`: a duplicate
`(propertyId, value)` pair is a no-op, otherwise the filter is appended and
the active preset cleared. -/
def addQuickFilter (s : FilterServiceState) (f : QuickFilter) :
    FilterServiceState :=
  if s.quickFilters.any (fun g => g.propertyId = f.propertyId ∧ g.value = f.value) then s
  else { s with quickFilters := s.quickFilters ++ [f], activePresetId := none }

/-- Embedding of `FilterService.removeQuickFilter`. -/
def removeQuickFilter (s : FilterServiceState) (propId value : String) :
    FilterServiceState :=
  { s with
      quickFilters :=
        s.quickFilters.filter (fun g => ¬(g.propertyId = propId ∧ g.value = value))
      activePresetId := none }

/-- Embedding of `FilterService.clearAllFilters`. -/
def clearAllFilters (s : FilterServiceState) : FilterServiceState :=
  { s with searchQuery := "", quickFilters := [], activePresetId := none,
           columnFilters := [] }

/-- Embedding of `FilterService.setColumnFilter` (lines 360–368): an empty
value list deletes the map entry, a non-empty one stores it; the active
preset is cleared either way. -/
def setColumnFilter (s : FilterServiceState) (propId : String)
    (values : List String) : FilterServiceState :=
  { s with
      columnFilters :=
        if values = [] then mapDelete s.columnFilters propId
        else mapSet s.columnFilters propId values
      activePresetId := none }

/-- Embedding of `FilterService.clearColumnFilters` (lines 387–390): clears
the column-filter map and signals change; `activePresetId` is not touched. -/
def clearColumnFilters (s : FilterServiceState) : FilterServiceState :=
  { s with columnFilters := [] }

/-- Embedding of `FilterService.serializeColumnFilters`: `undefined` for an
empty map, otherwise the map as a plain object in insertion order. -/
def serializeColumnFilters (s : FilterServiceState) :
    Option (List (String × List String)) :=
  if s.columnFilters = [] then none else some s.columnFilters

/-- Embedding of `FilterService.saveCurrentAsPreset` (lines 490–503). The
fresh id (`generateId()`, host time and randomness) is taken as an argument.
Returns the created preset and the updated state. -/
def saveCurrentAsPreset (s : FilterServiceState) (freshId name : String)
    (pagination : PresetPagination) : FilterPreset × FilterServiceState :=
  let preset : FilterPreset :=
    { id := freshId
      name := name
      filters := s.quickFilters
      searchQuery := if s.searchQuery = "" then none else some s.searchQuery
      columnFilters := serializeColumnFilters s
      pageSize := some pagination.pageSize
      currentPage := some pagination.currentPage }
  (preset, { s with presets := s.presets ++ [preset],
                    activePresetId := some freshId })

/-- Embedding of `FilterService.updatePreset`: overwrite the snapshot fields
of the preset with the given id in place; no-op when the id is unknown. -/
def updatePreset (s : FilterServiceState) (presetId : String)
    (pagination : PresetPagination) : FilterServiceState :=
  { s with
      presets := s.presets.map (fun p =>
        if p.id = presetId then
          { p with
              filters := s.quickFilters
              searchQuery := if s.searchQuery = "" then none else some s.searchQuery
              columnFilters := serializeColumnFilters s
              pageSize := some pagination.pageSize
              currentPage := some pagination.currentPage }
        else p) }

/-- Embedding of `FilterService.activatePreset` (lines 426–459): `null`
clears the live criteria; a known id restores the preset snapshot and
returns its pagination when both `pageSize` and `currentPage` are present;
an unknown id is a no-op. -/
def activatePreset (s : FilterServiceState) (presetId : Option String) :
    FilterServiceState × Option PresetPagination :=
  match presetId with
  | none =>
    ({ s with activePresetId := none, searchQuery := "", quickFilters := [],
              columnFilters := [] }, none)
  | some pid =>
    match s.presets.find? (fun p => p.id = pid) with
    | none => (s, none)
    | some preset =>
      ({ s with
          activePresetId := some pid
          quickFilters := preset.filters
          searchQuery := preset.searchQuery.getD ""
          columnFilters := preset.columnFilters.getD [] },
        match preset.pageSize, preset.currentPage with
        | some ps, some cp => some { pageSize := ps, currentPage := cp }
        | _, _ => none)

/-- Embedding of `FilterService.deletePreset` (lines 508–513). -/
def deletePreset (s : FilterServiceState) (presetId : String) :
    FilterServiceState :=
  { s with
      presets := s.presets.filter (fun p => p.id ≠ presetId)
      activePresetId :=
        if s.activePresetId = some presetId then none else s.activePresetId }

/-- Embedding of `FilterService.applyColumnFilters` (lines 542–566): with an
empty map all entries pass; otherwise an entry is kept when, for every map
entry with a non-empty accepted list, some accepted value equals one of the
entry's extracted values for that property. -/
def applyColumnFilters (s : FilterServiceState) (entries : List Entry) :
    List Entry :=
  if s.columnFilters = [] then entries
  else
    entries.filter (fun e =>
      s.columnFilters.all (fun pv =>
        pv.2 = [] ∨
          pv.2.any (fun sv =>
            (extractAllValues (e.getValue pv.1)).any (fun ev => ev = sv))))

/-! ## Claims about the filter state machine -/

/-- C3 counterexample: `clearColumnFilters` does not clear the active preset
id. On a state whose active preset is `"p"`, clearing the column filters
leaves `activePresetId = some "p"`, contradicting the claim that every manual
mutation of the filter criteria (including clearing column filters) yields
`activePresetId = null`. -/
theorem clearColumnFilters_keeps_active_preset :
    (clearColumnFilters
        { FilterService.initial with
            activePresetId := some "p"
            columnFilters := [("status", ["open"])] }).activePresetId
      = some "p" := rfl

/-- C3 (amended): setting the search query, adding a not-yet-present quick
filter, removing a quick filter, setting or removing a column filter, and
clearing all filters each yield `activePresetId = none`; `clearColumnFilters`
alone leaves `activePresetId` unchanged. -/
theorem manual_mutations_clear_active_preset
    (s : FilterServiceState) (q : String) (f : QuickFilter)
    (propId v : String) (vals : List String) :
    (setSearchQuery s q).activePresetId = none ∧
      ((s.quickFilters.any
          (fun g => g.propertyId = f.propertyId ∧ g.value = f.value)) = false →
        (addQuickFilter s f).activePresetId = none) ∧
      (removeQuickFilter s propId v).activePresetId = none ∧
      (setColumnFilter s propId vals).activePresetId = none ∧
      (clearAllFilters s).activePresetId = none ∧
      (clearColumnFilters s).activePresetId = s.activePresetId := by
  refine ⟨rfl, fun h => ?_, rfl, rfl, rfl, rfl⟩
  have h2 : ¬ ((s.quickFilters.any
      (fun g => g.propertyId = f.propertyId ∧ g.value = f.value)) = true) := by
    rw [h]; exact Bool.false_ne_true
  rw [addQuickFilter, if_neg h2]

/-- Witness for C3 (amended) at the initial state with the quick filter
`status equals open`. -/
theorem manual_mutations_clear_active_preset_witness :
    (addQuickFilter FilterService.initial
        { propertyId := "status", value := "open",
          operator := FilterOperator.equals }).activePresetId = none :=
  (manual_mutations_clear_active_preset FilterService.initial "q"
      { propertyId := "status", value := "open",
        operator := FilterOperator.equals } "p" "v" ["x"]).2.1 rfl

/-- C10: `deletePreset` changes neither the search query, the quick filters,
nor the column filters; it removes exactly the presets with the given id and
nulls `activePresetId` precisely when the deleted id was the active one. -/
theorem deletePreset_frame (s : FilterServiceState) (presetId : String) :
    (deletePreset s presetId).searchQuery = s.searchQuery ∧
      (deletePreset s presetId).quickFilters = s.quickFilters ∧
      (deletePreset s presetId).columnFilters = s.columnFilters ∧
      (deletePreset s presetId).presets
        = s.presets.filter (fun p => p.id ≠ presetId) ∧
      (deletePreset s presetId).activePresetId
        = (if s.activePresetId = some presetId then none
           else s.activePresetId) :=
  ⟨rfl, rfl, rfl, rfl, rfl⟩

/-- C2: an entry passes `applyColumnFilters` iff it is one of the input
entries and, for every column-filter entry with a non-empty accepted list,
some accepted value is among the entry's extracted atom strings for that
property (AND across properties, OR within a property); and the atoms of an
absent (null) property value are exactly the single empty-string atom
`[""]`. -/
theorem applyColumnFilters_spec (s : FilterServiceState)
    (entries : List Entry) (e : Entry) :
    (e ∈ applyColumnFilters s entries ↔
        e ∈ entries ∧
          ∀ pv ∈ s.columnFilters, pv.2 ≠ [] →
            ∃ sv ∈ pv.2, sv ∈ extractAllValues (e.getValue pv.1)) ∧
      (∀ propId, e.getValue propId = Value.vnull →
        extractAllValues (e.getValue propId) = [""]) := by
  constructor
  · unfold applyColumnFilters
    split
    · rename_i h
      simp [h]
    · rw [List.mem_filter]
      simp only [List.all_eq_true, decide_eq_true_eq, List.any_eq_true]
      constructor
      · rintro ⟨hmem, hall⟩
        refine ⟨hmem, fun pv hpv hne => ?_⟩
        rcases hall pv hpv with h | ⟨sv, hsv, hev⟩
        · exact absurd h hne
        · rcases hev with ⟨ev, hev, rfl⟩
          exact ⟨ev, hsv, hev⟩
      · rintro ⟨hmem, hall⟩
        refine ⟨hmem, fun pv hpv => ?_⟩
        by_cases hne : pv.2 = []
        · exact Or.inl hne
        · rcases hall pv hpv hne with ⟨sv, hsv, hev⟩
          exact Or.inr ⟨sv, hsv, sv, hev, rfl⟩
  · intro propId h
    rw [h]
    rfl

/-- Witness for C2: with column filters
`{status ↦ [open, blocked], owner ↦ [alice]}`, the entry with
`status = open` and `owner = alice` passes the filter, and an entry with an
absent `status` has atoms `[""]`. -/
theorem applyColumnFilters_spec_witness :
    let s : FilterServiceState :=
      { FilterService.initial with
          columnFilters := [("status", ["open", "blocked"]), ("owner", ["alice"])] }
    let e1 : Entry :=
      { path := "a.md",
        values := [("status", Value.vstring "open"), ("owner", Value.vstring "alice")] }
    let e2 : Entry :=
      { path := "b.md",
        values := [("status", Value.vstring "open"), ("owner", Value.vstring "bob")] }
    e1 ∈ applyColumnFilters s [e1, e2] ∧
      extractAllValues (e2.getValue "due") = [""] := by
  intro s e1 e2
  refine ⟨(applyColumnFilters_spec s [e1, e2] e1).1.mpr
      ⟨List.mem_cons_self _ _, by decide⟩,
    (applyColumnFilters_spec s [e1, e2] e2).2 "due" (by rfl)⟩

/-- Embedding of the view's `onPresetSelect` pagination restore
(src/src/views/PaginatedTableView.ts lines 134–140): apply the returned
snapshot with `setPageSize` then `goToPage`. -/
def applyPresetPagination (s : PaginationState) (pp : PresetPagination) :
    PaginationState :=
  (goToPage (setPageSize s pp.pageSize).1 pp.currentPage).1

/-- C6: saving a preset snapshots the given pagination into its `pageSize`
and `currentPage` fields; activating that preset from any later filter state
that still holds it returns exactly that snapshot; and the view's restore
step (`setPageSize` then `goToPage`) re-establishes the saved page size and
page, provided the saved page fits in the page count the saved size yields
for the current item total. -/
theorem preset_saves_and_restores_pagination
    (s : FilterServiceState) (freshId name : String) (pg : PresetPagination)
    (s2 : FilterServiceState) (ps : PaginationState)
    (hfind : s2.presets.find? (fun p => p.id = freshId)
      = some (saveCurrentAsPreset s freshId name pg).1)
    (hsize : 0 < pg.pageSize)
    (hpage : 1 ≤ pg.currentPage)
    (hfits : pg.currentPage ≤ calculateTotalPages ps.totalItems pg.pageSize) :
    (saveCurrentAsPreset s freshId name pg).1.pageSize = some pg.pageSize ∧
      (saveCurrentAsPreset s freshId name pg).1.currentPage
        = some pg.currentPage ∧
      (activatePreset s2 (some freshId)).2 = some pg ∧
      (applyPresetPagination ps pg).pageSize = pg.pageSize ∧
      (applyPresetPagination ps pg).currentPage = pg.currentPage := by
  have hclamp :
      clamp pg.currentPage 1 (calculateTotalPages ps.totalItems pg.pageSize)
        = pg.currentPage := by
    unfold clamp; omega
  have happ :
      (applyPresetPagination ps pg).pageSize = pg.pageSize ∧
        (applyPresetPagination ps pg).currentPage = pg.currentPage := by
    unfold applyPresetPagination
    rw [setPageSize, if_neg (by omega : ¬ pg.pageSize ≤ 0)]
    unfold goToPage
    simp only [hclamp]
    split
    · exact ⟨rfl, rfl⟩
    · rename_i hne
      simp only [not_not] at hne
      exact ⟨rfl, hne.symm⟩
  refine ⟨rfl, rfl, ?_, happ.1, happ.2⟩
  unfold activatePreset
  dsimp only
  rw [hfind]
  rfl

/-- Witness for C6: save while on page 3 with page size 50, navigate away by
setting a search query, reactivate; with 120 items the restore yields
`{pageSize := 50, currentPage := 3}`. -/
theorem preset_saves_and_restores_pagination_witness :
    let pg : PresetPagination := { pageSize := 50, currentPage := 3 }
    let saved := saveCurrentAsPreset FilterService.initial "id1" "mine" pg
    let s2 := setSearchQuery saved.2 "elsewhere"
    let ps : PaginationState :=
      { currentPage := 1, pageSize := 25, totalItems := 120, totalPages := 5 }
    saved.1.pageSize = some 50 ∧
      saved.1.currentPage = some 3 ∧
      (activatePreset s2 (some "id1")).2 = some pg ∧
      (applyPresetPagination ps pg).pageSize = 50 ∧
      (applyPresetPagination ps pg).currentPage = 3 :=
  preset_saves_and_restores_pagination FilterService.initial "id1" "mine"
    { pageSize := 50, currentPage := 3 }
    (setSearchQuery
      (saveCurrentAsPreset FilterService.initial "id1" "mine"
        { pageSize := 50, currentPage := 3 }).2 "elsewhere")
    { currentPage := 1, pageSize := 25, totalItems := 120, totalPages := 5 }
    (by decide) (by decide) (by decide) (by decide)

/-! ## Client-side sort (src/src/views/PaginatedTableView.ts) -/

/-- The `SortDirection` union type of src/src/types.ts. -/
inductive SortDirection where
  | asc
  | desc
deriving Repr, DecidableEq

/-- The `SortState` record of src/src/types.ts. -/
structure SortState where
  propertyId : Option String
  direction : SortDirection

/-- Digit test on the code point, the model's `Nat`-level view of the
character class `0`–`9`. -/
def isDigitChar (c : Char) : Bool := decide (48 ≤ c.toNat ∧ c.toNat ≤ 57)

/-- Numeric value of a digit character. -/
def digitVal (c : Char) : Nat := c.toNat - 48

/-- Basic-latin uppercase test on the code point. -/
def isUpperChar (c : Char) : Bool := decide (65 ≤ c.toNat ∧ c.toNat ≤ 90)

/-- Case folding for the collation model: basic-latin uppercase letters map
to their lowercase forms, everything else is unchanged. -/
def lowerChar (c : Char) : Char :=
  if isUpperChar c then Char.ofNat (c.toNat + 32) else c

/-- The code point of `Char.ofNat` at a valid code point. -/
theorem toNat_ofNat_valid {n : Nat} (h : n.isValidChar) :
    (Char.ofNat n).toNat = n := by
  rw [Char.ofNat, dif_pos h]
  rfl

/-- Code point of the case folding. -/
theorem toNat_lowerChar (c : Char) :
    (lowerChar c).toNat = if isUpperChar c then c.toNat + 32 else c.toNat := by
  unfold lowerChar
  split
  · rename_i h
    simp only [isUpperChar, decide_eq_true_eq] at h
    exact toNat_ofNat_valid (Or.inl (by omega))
  · rfl

/-- Case folding does not create or destroy digits. -/
theorem isDigitChar_lowerChar (c : Char) :
    isDigitChar (lowerChar c) = isDigitChar c := by
  have h := toNat_lowerChar c
  simp only [isDigitChar, isUpperChar, decide_eq_true_eq] at *
  by_cases hu : 65 ≤ c.toNat ∧ c.toNat ≤ 90
  · rw [if_pos (by simpa [isUpperChar] using hu)] at h
    rw [h]
    simp only [decide_eq_decide]
    omega
  · rw [if_neg (by simpa [isUpperChar] using hu)] at h
    rw [h]

/-- One token of the natural-comparison tokenization: a maximal digit run
(numeric value and digit count) or a maximal non-digit run. -/
inductive SortTok where
  | num (value : Nat) (digits : Nat)
  | str (chars : List Char)
deriving Repr, DecidableEq

/-- Push one character in front of a token list, extending the head run when
the character class matches it. -/
def tokCons (c : Char) (ts : List SortTok) : List SortTok :=
  if isDigitChar c then
    match ts with
    | .num v k :: rest => .num (digitVal c * 10 ^ k + v) (k + 1) :: rest
    | _ => .num (digitVal c) 1 :: ts
  else
    match ts with
    | .str s :: rest => .str (c :: s) :: rest
    | _ => .str [c] :: ts

/-- Tokenize a character list into maximal digit / non-digit runs. -/
def tokenize (cs : List Char) : List SortTok := cs.foldr tokCons []

/-- Three-way comparison of natural numbers as a JavaScript-style sign. -/
def cmpNat (a b : Nat) : Int := if a < b then -1 else if b < a then 1 else 0

/-- Three-way comparison of character lists by code point. -/
def cmpCharList : List Char → List Char → Int
  | [], [] => 0
  | [], _ :: _ => -1
  | _ :: _, [] => 1
  | a :: as, b :: bs =>
    if cmpNat a.toNat b.toNat = 0 then cmpCharList as bs
    else cmpNat a.toNat b.toNat

/-- Three-way comparison of tokens: digit runs compare by numeric value (ties
by digit count), digit runs order before non-digit runs, non-digit runs
compare by code point. -/
def cmpTok : SortTok → SortTok → Int
  | .num v1 k1, .num v2 k2 => if cmpNat v1 v2 = 0 then cmpNat k1 k2 else cmpNat v1 v2
  | .num _ _, .str _ => -1
  | .str _, .num _ _ => 1
  | .str s, .str t => cmpCharList s t

/-- Three-way comparison of token lists, shorter list first on exhaustion. -/
def cmpTokList : List SortTok → List SortTok → Int
  | [], [] => 0
  | [], _ :: _ => -1
  | _ :: _, [] => 1
  | a :: as, b :: bs =>
    if cmpTok a b = 0 then cmpTokList as bs else cmpTok a b

/-- Modelled from the spec: `naturalCompare` (src/src/utils/helpers.ts lines
141–143) delegates to the host collation
`localeCompare(b, undefined, {numeric: true, sensitivity: 'base'})`, a
host-library behaviour outside the repository. Modelled per spec §4.2 and the
glossary: case-insensitive string order in which embedded digit runs compare
by numeric value rather than lexicographically. -/
def naturalCompare (a b : String) : Int :=
  cmpTokList (tokenize (a.data.map lowerChar)) (tokenize (b.data.map lowerChar))

/-- Embedding of the view's private `compareValues`
(src/src/views/PaginatedTableView.ts lines 510–530): numbers by subtraction,
dates by timestamp, booleans as 0/1, everything else converted to strings and
compared naturally. -/
def compareValues (a b : Value) : Int :=
  match a, b with
  | .vnumber x, .vnumber y => x - y
  | .vdate x _, .vdate y _ => x - y
  | .vbool x, .vbool y => (cond x 1 0) - (cond y 1 0)
  | _, _ => naturalCompare (valueToString a) (valueToString b)

/-- Embedding of the view's private `isEmptyValue`
(src/src/views/PaginatedTableView.ts lines 500–504): null, or string form
empty or the literal `"null"`. -/
def isEmptyValue (v : Value) : Bool :=
  match v with
  | .vnull => true
  | _ => valueToString v = "" || valueToString v = "null"

/-- The comparator closure passed to `Array.prototype.sort` by `sortEntries`
(src/src/views/PaginatedTableView.ts lines 480–494): empty values always sort
to the end regardless of direction; the direction sign is applied only to the
both-non-empty comparison. -/
def sortEntryCmp (direction : SortDirection) (propId : String)
    (a b : Entry) : Int :=
  let valueA := a.getValue propId
  let valueB := b.getValue propId
  if isEmptyValue valueA ∧ isEmptyValue valueB then 0
  else if isEmptyValue valueA then 1
  else if isEmptyValue valueB then -1
  else
    let comparison := compareValues valueA valueB
    match direction with
    | .asc => comparison
    | .desc => -comparison

/-- Insert into a sorted list, after every element that compares strictly
before the new one (the stable insertion of a stable sort). -/
def insertSorted {α : Type} (cmp : α → α → Int) (x : α) : List α → List α
  | [] => [x]
  | y :: ys => if cmp y x < 0 then y :: insertSorted cmp x ys else x :: y :: ys

/-- Stable comparator sort, the model of the ECMAScript stable
`Array.prototype.sort`. -/
def stableSortByCmp {α : Type} (cmp : α → α → Int) (l : List α) : List α :=
  l.foldr (insertSorted cmp) []

/-- Embedding of `PaginatedTableView.sortEntries` (lines 472–495): no sort
property means source order is preserved, otherwise a stable sort by the
empty-aware direction-signed comparator. -/
def sortEntries (sort : SortState) (entries : List Entry) : List Entry :=
  match sort.propertyId with
  | none => entries
  | some propId => stableSortByCmp (sortEntryCmp sort.direction propId) entries

/-- C4: the sort comparator returns 0 when both compared values are empty,
orders an empty value after a non-empty one with the same sign for both
directions, and applies the direction sign only in the both-non-empty
branch. -/
theorem sortEntryCmp_empty_policy (direction : SortDirection)
    (propId : String) (a b : Entry) :
    (isEmptyValue (a.getValue propId) = true →
        isEmptyValue (b.getValue propId) = true →
      sortEntryCmp direction propId a b = 0) ∧
      (isEmptyValue (a.getValue propId) = true →
          isEmptyValue (b.getValue propId) = false →
        sortEntryCmp direction propId a b = 1) ∧
      (isEmptyValue (a.getValue propId) = false →
          isEmptyValue (b.getValue propId) = true →
        sortEntryCmp direction propId a b = -1) ∧
      (isEmptyValue (a.getValue propId) = false →
          isEmptyValue (b.getValue propId) = false →
        sortEntryCmp direction propId a b =
          (match direction with
            | SortDirection.asc =>
              compareValues (a.getValue propId) (b.getValue propId)
            | SortDirection.desc =>
              -(compareValues (a.getValue propId) (b.getValue propId)))) := by
  unfold sortEntryCmp
  refine ⟨fun h1 h2 => ?_, fun h1 h2 => ?_, fun h1 h2 => ?_, fun h1 h2 => ?_⟩ <;>
    simp [h1, h2]

/-- Witness for C4: a null value sorts after the number 5 in both directions,
and the spec's example `[5, null, 1]` sorts ascending to `[1, 5, null]` and
descending to `[5, 1, null]`. -/
theorem sortEntryCmp_empty_policy_witness :
    let eNull : Entry := { path := "n.md", values := [] }
    let e5 : Entry := { path := "a.md", values := [("num", Value.vnumber 5)] }
    let e1 : Entry := { path := "b.md", values := [("num", Value.vnumber 1)] }
    sortEntryCmp SortDirection.asc "num" eNull e5 = 1 ∧
      sortEntryCmp SortDirection.desc "num" eNull e5 = 1 ∧
      sortEntries { propertyId := some "num", direction := SortDirection.asc }
        [e5, eNull, e1] = [e1, e5, eNull] ∧
      sortEntries { propertyId := some "num", direction := SortDirection.desc }
        [e5, eNull, e1] = [e5, e1, eNull] :=
  ⟨(sortEntryCmp_empty_policy SortDirection.asc "num"
      { path := "n.md", values := [] }
      { path := "a.md", values := [("num", Value.vnumber 5)] }).2.1 rfl rfl,
    (sortEntryCmp_empty_policy SortDirection.desc "num"
      { path := "n.md", values := [] }
      { path := "a.md", values := [("num", Value.vnumber 5)] }).2.1 rfl rfl,
    rfl, rfl⟩

/-! ## Decimal digit strings and the natural-comparison lemmas for C8 -/

/-- Digit character of a value below ten. -/
def digitChar (d : Nat) : Char := Char.ofNat (48 + d)

/-- Decimal digit characters of a natural number, most significant first,
with explicit fuel (any fuel above the number suffices). -/
def natDigitsAux : Nat → Nat → List Char
  | 0, _ => []
  | fuel + 1, n =>
    if n < 10 then [digitChar n]
    else natDigitsAux fuel (n / 10) ++ [digitChar (n % 10)]

/-- Decimal digit characters of a natural number, most significant first. -/
def natDigits (n : Nat) : List Char := natDigitsAux (n + 1) n

/-- Code point of a digit character. -/
theorem toNat_digitChar {d : Nat} (h : d < 10) :
    (digitChar d).toNat = 48 + d :=
  toNat_ofNat_valid (Or.inl (by omega))

/-- Digit characters are digits. -/
theorem isDigitChar_digitChar {d : Nat} (h : d < 10) :
    isDigitChar (digitChar d) = true := by
  simp only [isDigitChar, toNat_digitChar h, decide_eq_true_eq]
  omega

/-- Numeric value of a digit character. -/
theorem digitVal_digitChar {d : Nat} (h : d < 10) :
    digitVal (digitChar d) = d := by
  simp [digitVal, toNat_digitChar h]

/-- Digit characters are not uppercase, hence fixed by the case folding. -/
theorem lowerChar_digitChar {d : Nat} (h : d < 10) :
    lowerChar (digitChar d) = digitChar d := by
  unfold lowerChar
  rw [if_neg]
  simp only [isUpperChar, toNat_digitChar h, decide_eq_true_eq]
  omega

/-- Every character of a rendered number is a digit character. -/
theorem mem_natDigitsAux {fuel n : Nat} {c : Char}
    (h : c ∈ natDigitsAux fuel n) : ∃ d, d < 10 ∧ c = digitChar d := by
  induction fuel generalizing n with
  | zero => simp [natDigitsAux] at h
  | succ fuel ih =>
    unfold natDigitsAux at h
    split at h
    · rename_i h10
      simp only [List.mem_singleton] at h
      exact ⟨n, h10, h⟩
    · rcases List.mem_append.1 h with h1 | h1
      · exact ih h1
      · simp only [List.mem_singleton] at h1
        exact ⟨n % 10, Nat.mod_lt _ (by omega), h1⟩

/-- Does the token list start with a digit-run token? -/
def headIsNum : List SortTok → Bool
  | SortTok.num _ _ :: _ => true
  | _ => false

/-- Does the token list start with a non-digit-run token? -/
def headIsStr : List SortTok → Bool
  | SortTok.str _ :: _ => true
  | _ => false

/-- Pushing a digit onto a digit-run head extends the run. -/
theorem tokCons_digit_num (c : Char) (v k : Nat) (ts : List SortTok)
    (hc : isDigitChar c = true) :
    tokCons c (SortTok.num v k :: ts)
      = SortTok.num (digitVal c * 10 ^ k + v) (k + 1) :: ts := by
  simp [tokCons, hc]

/-- Pushing a digit onto a list without a digit-run head starts a run. -/
theorem tokCons_digit_new (c : Char) (ts : List SortTok)
    (hc : isDigitChar c = true) (hts : headIsNum ts = false) :
    tokCons c ts = SortTok.num (digitVal c) 1 :: ts := by
  unfold tokCons
  rw [if_pos hc]
  match ts with
  | [] => rfl
  | SortTok.num _ _ :: _ => simp [headIsNum] at hts
  | SortTok.str _ :: _ => rfl

/-- Pushing a non-digit onto a string-run head extends the run. -/
theorem tokCons_nondigit_str (c : Char) (s : List Char) (ts : List SortTok)
    (hc : isDigitChar c = false) :
    tokCons c (SortTok.str s :: ts) = SortTok.str (c :: s) :: ts := by
  simp [tokCons, hc]

/-- Pushing a non-digit onto a list without a string-run head starts a run. -/
theorem tokCons_nondigit_new (c : Char) (ts : List SortTok)
    (hc : isDigitChar c = false) (hts : headIsStr ts = false) :
    tokCons c ts = SortTok.str [c] :: ts := by
  unfold tokCons
  rw [if_neg (by simp [hc])]
  match ts with
  | [] => rfl
  | SortTok.num _ _ :: _ => rfl
  | SortTok.str _ :: _ => simp [headIsStr] at hts

/-- Folding a rendered number onto a digit-run head merges into one run. -/
theorem foldr_tokCons_natDigitsAux_num (fuel : Nat) :
    ∀ n v k (ts : List SortTok), n < fuel →
      (natDigitsAux fuel n).foldr tokCons (SortTok.num v k :: ts)
        = SortTok.num (n * 10 ^ k + v)
            ((natDigitsAux fuel n).length + k) :: ts := by
  induction fuel with
  | zero => intro n v k ts h; omega
  | succ fuel ih =>
    intro n v k ts h
    by_cases h10 : n < 10
    · simp only [natDigitsAux, if_pos h10, List.foldr_cons, List.foldr_nil,
        List.length_singleton]
      rw [tokCons_digit_num _ _ _ _ (isDigitChar_digitChar h10),
        digitVal_digitChar h10, Nat.add_comm 1 k]
    · have hdiv : n / 10 < fuel := by
        have := Nat.div_lt_self (by omega : 0 < n) (by omega : 1 < 10)
        omega
      simp only [natDigitsAux, if_neg h10, List.foldr_append, List.foldr_cons,
        List.foldr_nil, List.length_append, List.length_singleton]
      rw [tokCons_digit_num _ _ _ _ (isDigitChar_digitChar (Nat.mod_lt _ (by omega))),
        digitVal_digitChar (Nat.mod_lt _ (by omega)),
        ih (n / 10) _ _ ts hdiv, pow_succ]
      have hmod := Nat.div_add_mod n 10
      have hval : n / 10 * (10 ^ k * 10) + (n % 10 * 10 ^ k + v)
          = n * 10 ^ k + v := by
        calc n / 10 * (10 ^ k * 10) + (n % 10 * 10 ^ k + v)
            = (10 * (n / 10) + n % 10) * 10 ^ k + v := by ring
          _ = n * 10 ^ k + v := by rw [hmod]
      have hlen : (natDigitsAux fuel (n / 10)).length + (k + 1)
          = (natDigitsAux fuel (n / 10)).length + 1 + k := by omega
      rw [hval, hlen]

/-- Folding a rendered number onto a list without a digit-run head yields the
single digit-run token of its value. -/
theorem foldr_tokCons_natDigitsAux (fuel : Nat) (n : Nat) (ts : List SortTok)
    (h : n < fuel) (hts : headIsNum ts = false) :
    (natDigitsAux fuel n).foldr tokCons ts
      = SortTok.num n (natDigitsAux fuel n).length :: ts := by
  match fuel with
  | 0 => omega
  | fuel + 1 =>
    by_cases h10 : n < 10
    · simp only [natDigitsAux, if_pos h10, List.foldr_cons, List.foldr_nil,
        List.length_singleton]
      rw [tokCons_digit_new _ _ (isDigitChar_digitChar h10) hts,
        digitVal_digitChar h10]
    · have hdiv : n / 10 < fuel := by
        have := Nat.div_lt_self (by omega : 0 < n) (by omega : 1 < 10)
        omega
      simp only [natDigitsAux, if_neg h10, List.foldr_append, List.foldr_cons,
        List.foldr_nil, List.length_append, List.length_singleton]
      rw [tokCons_digit_new _ _ (isDigitChar_digitChar (Nat.mod_lt _ (by omega))) hts,
        digitVal_digitChar (Nat.mod_lt _ (by omega)),
        foldr_tokCons_natDigitsAux_num fuel (n / 10) _ _ ts hdiv, pow_one]
      have hval : n / 10 * 10 + n % 10 = n := by omega
      rw [hval]

/-- Folding a run of non-digit characters onto a list without a string-run
head yields that run as a single token. -/
theorem foldr_tokCons_nondigits (p : List Char) (ts : List SortTok)
    (hp : ∀ c ∈ p, isDigitChar c = false) (hts : headIsStr ts = false) :
    p.foldr tokCons ts = (if p = [] then ts else SortTok.str p :: ts) := by
  induction p with
  | nil => simp
  | cons c p' ih =>
    have hc : isDigitChar c = false := hp c (by simp)
    have hp' : ∀ x ∈ p', isDigitChar x = false := fun x hx => hp x (by simp [hx])
    simp only [List.foldr_cons, ih hp']
    by_cases hnil : p' = []
    · subst hnil
      simp [tokCons_nondigit_new c ts hc hts]
    · rw [if_neg hnil, tokCons_nondigit_str c p' ts hc, if_neg (by simp)]

/-- A list mapped by a function that fixes each of its members is itself. -/
theorem map_fix {α : Type} (f : α → α) (l : List α)
    (h : ∀ a ∈ l, f a = a) : l.map f = l := by
  induction l with
  | nil => rfl
  | cons a l ih =>
    simp only [List.map_cons, h a (by simp), ih (fun x hx => h x (by simp [hx]))]

/-- Case folding fixes rendered numbers. -/
theorem map_lowerChar_natDigitsAux (fuel n : Nat) :
    (natDigitsAux fuel n).map lowerChar = natDigitsAux fuel n :=
  map_fix _ _ (fun c hc => by
    obtain ⟨d, hd, rfl⟩ := mem_natDigitsAux hc
    exact lowerChar_digitChar hd)

/-- Rendered numbers consist of digits. -/
theorem isDigitChar_mem_natDigitsAux {fuel n : Nat} {c : Char}
    (hc : c ∈ natDigitsAux fuel n) : isDigitChar c = true := by
  obtain ⟨d, hd, rfl⟩ := mem_natDigitsAux hc
  exact isDigitChar_digitChar hd

/-- Three-way natural comparison of a value with itself. -/
theorem cmpNat_self (a : Nat) : cmpNat a a = 0 := by simp [cmpNat]

/-- Three-way comparison of a character list with itself. -/
theorem cmpCharList_self (s : List Char) : cmpCharList s s = 0 := by
  induction s with
  | nil => rfl
  | cons a s ih => simp [cmpCharList, cmpNat_self, ih]

/-- Three-way comparison of a token with itself. -/
theorem cmpTok_self (t : SortTok) : cmpTok t t = 0 := by
  cases t with
  | num v k => simp [cmpTok, cmpNat_self]
  | str s => simp [cmpTok, cmpCharList_self]

/-- Three-way comparison of a token list with itself. -/
theorem cmpTokList_self (ts : List SortTok) : cmpTokList ts ts = 0 := by
  induction ts with
  | nil => rfl
  | cons t ts ih => simp [cmpTokList, cmpTok_self, ih]

/-- Digit-run tokens compare by numeric value. -/
theorem cmpTok_num_lt {m n lm ln : Nat} (h : m < n) :
    cmpTok (SortTok.num m lm) (SortTok.num n ln) = -1 := by
  simp [cmpTok, cmpNat, h]

/-- C8: string comparison in the sort is natural: (a) after any common
non-digit prefix, embedded digit runs compare by numeric value; (b) strings
equal up to case folding compare equal; (c) sorting the entries named
`file10`, `file2`, `file1` ascending by the view's sort yields
`file1, file2, file10`. -/
theorem naturalCompare_spec :
    (∀ (p : String) (m n : Nat), (∀ c ∈ p.data, isDigitChar c = false) →
        m < n →
      naturalCompare (p ++ String.mk (natDigits m))
        (p ++ String.mk (natDigits n)) = -1) ∧
      (∀ a b : String, a.data.map lowerChar = b.data.map lowerChar →
        naturalCompare a b = 0) ∧
      sortEntries { propertyId := some "name", direction := SortDirection.asc }
        [{ path := "10.md", values := [("name", Value.vstring "file10")] },
          { path := "2.md", values := [("name", Value.vstring "file2")] },
          { path := "1.md", values := [("name", Value.vstring "file1")] }]
        = [{ path := "1.md", values := [("name", Value.vstring "file1")] },
            { path := "2.md", values := [("name", Value.vstring "file2")] },
            { path := "10.md", values := [("name", Value.vstring "file10")] }] := by
  refine ⟨?_, ?_, ?_⟩
  · intro p m n hp hlt
    unfold naturalCompare
    have hdm : (p ++ String.mk (natDigits m)).data = p.data ++ natDigits m := by
      simp [String.data_append]
    have hdn : (p ++ String.mk (natDigits n)).data = p.data ++ natDigits n := by
      simp [String.data_append]
    rw [hdm, hdn, List.map_append, List.map_append]
    unfold natDigits
    rw [map_lowerChar_natDigitsAux, map_lowerChar_natDigitsAux]
    unfold tokenize
    rw [List.foldr_append, List.foldr_append,
      foldr_tokCons_natDigitsAux (m + 1) m [] (by omega) rfl,
      foldr_tokCons_natDigitsAux (n + 1) n [] (by omega) rfl]
    have hp' : ∀ c ∈ p.data.map lowerChar, isDigitChar c = false := by
      intro c hc
      rcases List.mem_map.1 hc with ⟨d, hd, rfl⟩
      rw [isDigitChar_lowerChar]
      exact hp d hd
    rw [foldr_tokCons_nondigits _
        [SortTok.num m (natDigitsAux (m + 1) m).length] hp' rfl,
      foldr_tokCons_nondigits _
        [SortTok.num n (natDigitsAux (n + 1) n).length] hp' rfl]
    by_cases hnil : p.data.map lowerChar = []
    · rw [if_pos hnil, if_pos hnil]
      simp [cmpTokList, cmpTok_num_lt hlt]
    · rw [if_neg hnil, if_neg hnil]
      simp [cmpTokList, cmpTok_self, cmpTok_num_lt hlt]
  · intro a b h
    unfold naturalCompare
    rw [h]
    exact cmpTokList_self _
  · rfl

/-- Witness for C8: `file2` compares before `file10`, `ABC` and `abc`
compare equal. -/
theorem naturalCompare_spec_witness :
    naturalCompare "file2" "file10" = -1 ∧ naturalCompare "ABC" "abc" = 0 :=
  ⟨naturalCompare_spec.1 "file" 2 10 (by decide) (by decide),
    naturalCompare_spec.2.1 "ABC" "abc" (by decide)⟩

/-! ## Preset persistence (`JSON.stringify` / `safeJsonParse`)

The repository persists the preset list with `savePresetsToJson` =
`JSON.stringify(this.presets)` and `loadPresets` =
`safeJsonParse(json, [])` (src/src/services/FilterService.ts lines 411–420,
src/src/utils/helpers.ts lines 78–84). The host `JSON.stringify`/`JSON.parse`
pair is modelled here by an executable encoder producing exactly the
canonical stringify output for the preset schema (object keys in creation
order, `undefined` optional fields omitted, strings escaped as stringify
does) and a total recursive-descent parser for it; `safeJsonParse`'s
`try/catch` becomes the parser's `Option` fallback. -/

/-- Lowercase hexadecimal digit of a value below sixteen. -/
def hexDigitChar : Nat → Char
  | 0 => '0' | 1 => '1' | 2 => '2' | 3 => '3' | 4 => '4'
  | 5 => '5' | 6 => '6' | 7 => '7' | 8 => '8' | 9 => '9'
  | 10 => 'a' | 11 => 'b' | 12 => 'c' | 13 => 'd' | 14 => 'e' | 15 => 'f'
  | _ => '0'

/-- The escape `JSON.stringify` applies to one character of a string: quote,
backslash and the short control escapes, `\u00XX` for the other control
characters, everything else verbatim. -/
def escChar (c : Char) : List Char :=
  if c = '"' then ['\\', '"']
  else if c = '\\' then ['\\', '\\']
  else if c = '\n' then ['\\', 'n']
  else if c = '\r' then ['\\', 'r']
  else if c = '\t' then ['\\', 't']
  else if c = '\x08' then ['\\', 'b']
  else if c = '\x0c' then ['\\', 'f']
  else if c.toNat < 32 then
    ['\\', 'u', '0', '0', hexDigitChar (c.toNat / 16), hexDigitChar (c.toNat % 16)]
  else [c]

/-- Escaped body of a JSON string literal. -/
def encStrBody : List Char → List Char
  | [] => []
  | c :: cs => escChar c ++ encStrBody cs

/-- A JSON string literal. -/
def encString (s : String) : List Char := '"' :: (encStrBody s.data ++ ['"'])

/-- A JSON integer literal, as `String(n)` renders an integral number. -/
def encInt (i : Int) : List Char :=
  if i < 0 then '-' :: natDigits i.natAbs else natDigits i.toNat

/-- Wire name of a quick-filter operator. -/
def operatorName : FilterOperator → String
  | FilterOperator.equals => "equals"
  | FilterOperator.contains => "contains"
  | FilterOperator.not_equals => "not_equals"

/-- Comma-separated encodings of the elements of a list. -/
def encListSep {α : Type} (enc : α → List Char) : List α → List Char
  | [] => []
  | [x] => enc x
  | x :: xs => enc x ++ ',' :: encListSep enc xs

/-- A delimited JSON sequence (array or object). -/
def encSeq {α : Type} (openC close : Char) (enc : α → List Char)
    (l : List α) : List Char :=
  openC :: (encListSep enc l ++ [close])

/-- Key-prefix literal of the `id` field. -/
def litId : List Char := "\x7b\"id\":".data

/-- Key-prefix literal of the `name` field. -/
def litName : List Char := ",\"name\":".data

/-- Key-prefix literal of the `filters` field. -/
def litFilters : List Char := ",\"filters\":".data

/-- Key-prefix literal of the `searchQuery` field. -/
def litSearchQuery : List Char := ",\"searchQuery\":".data

/-- Key-prefix literal of the `columnFilters` field. -/
def litColumnFilters : List Char := ",\"columnFilters\":".data

/-- Key-prefix literal of the `pageSize` field. -/
def litPageSize : List Char := ",\"pageSize\":".data

/-- Key-prefix literal of the `currentPage` field. -/
def litCurrentPage : List Char := ",\"currentPage\":".data

/-- Key-prefix literal of the `propertyId` field. -/
def litPropertyId : List Char := "\x7b\"propertyId\":".data

/-- Key-prefix literal of the `value` field. -/
def litValue : List Char := ",\"value\":".data

/-- Key-prefix literal of the `operator` field. -/
def litOperator : List Char := ",\"operator\":".data

/-- Stringify of one quick filter, keys in creation order. -/
def encQuickFilter (f : QuickFilter) : List Char :=
  litPropertyId ++ encString f.propertyId
    ++ litValue ++ encString f.value
    ++ litOperator ++ encString (operatorName f.operator)
    ++ ['\x7d']

/-- Stringify of one column-filter object entry. -/
def encColFilterEntry (kv : String × List String) : List Char :=
  encString kv.1 ++ ':' :: encSeq '[' ']' encString kv.2

/-- Stringify of the column-filters plain object, keys in insertion order. -/
def encColFilters (m : List (String × List String)) : List Char :=
  encSeq '\x7b' '\x7d' encColFilterEntry m

/-- Stringify of one optional object field: nothing when the value is
`undefined`, the key-prefix literal and the encoded value otherwise. -/
def encOpt {α : Type} (lit : List Char) (enc : α → List Char) :
    Option α → List Char
  | none => []
  | some v => lit ++ enc v

/-- Stringify of one preset object, keys in the creation order of
`saveCurrentAsPreset`, `undefined` fields omitted. -/
def encPreset (p : FilterPreset) : List Char :=
  litId ++ encString p.id
    ++ litName ++ encString p.name
    ++ litFilters ++ encSeq '[' ']' encQuickFilter p.filters
    ++ encOpt litSearchQuery encString p.searchQuery
    ++ encOpt litColumnFilters encColFilters p.columnFilters
    ++ encOpt litPageSize encInt p.pageSize
    ++ encOpt litCurrentPage encInt p.currentPage
    ++ ['\x7d']

/-- Embedding of `FilterService.savePresetsToJson`:
`JSON.stringify(this.presets)`. -/
def savePresetsToJson (presets : List FilterPreset) : String :=
  String.mk (encSeq '[' ']' encPreset presets)

/-- Consume an expected literal from the input. -/
def pLit : List Char → List Char → Option (List Char)
  | [], input => some input
  | _ :: _, [] => none
  | c :: cs, d :: input => if c = d then pLit cs input else none

/-- Value of one hexadecimal digit character. -/
def pHexVal (c : Char) : Option Nat :=
  if 48 ≤ c.toNat ∧ c.toNat ≤ 57 then some (c.toNat - 48)
  else if 97 ≤ c.toNat ∧ c.toNat ≤ 102 then some (c.toNat - 87)
  else if 65 ≤ c.toNat ∧ c.toNat ≤ 70 then some (c.toNat - 55)
  else none

/-- Parse the body of a JSON string literal up to its closing quote,
decoding the escapes. -/
def pStrBody : List Char → Option (List Char × List Char)
  | [] => none
  | c :: rest =>
    if c = '"' then some ([], rest)
    else if c = '\\' then
      match rest with
      | [] => none
      | e :: r =>
        if e = '"' then (pStrBody r).map (fun p => ('"' :: p.1, p.2))
        else if e = '\\' then (pStrBody r).map (fun p => ('\\' :: p.1, p.2))
        else if e = '/' then (pStrBody r).map (fun p => ('/' :: p.1, p.2))
        else if e = 'n' then (pStrBody r).map (fun p => ('\n' :: p.1, p.2))
        else if e = 'r' then (pStrBody r).map (fun p => ('\r' :: p.1, p.2))
        else if e = 't' then (pStrBody r).map (fun p => ('\t' :: p.1, p.2))
        else if e = 'b' then (pStrBody r).map (fun p => ('\x08' :: p.1, p.2))
        else if e = 'f' then (pStrBody r).map (fun p => ('\x0c' :: p.1, p.2))
        else if e = 'u' then
          match r with
          | h1 :: h2 :: h3 :: h4 :: r2 =>
            match pHexVal h1, pHexVal h2, pHexVal h3, pHexVal h4 with
            | some a, some b, some c2, some d =>
              let v := ((a * 16 + b) * 16 + c2) * 16 + d
              if hv : Nat.isValidChar v then
                (pStrBody r2).map (fun p => (Char.ofNat v :: p.1, p.2))
              else none
            | _, _, _, _ => none
          | _ => none
        else none
    else (pStrBody rest).map (fun p => (c :: p.1, p.2))

/-- Parse a JSON string literal. -/
def pString (input : List Char) : Option (String × List Char) :=
  match input with
  | [] => none
  | c :: rest =>
    if c = '"' then (pStrBody rest).map (fun p => (String.mk p.1, p.2))
    else none

/-- Consume a run of decimal digits into an accumulator. -/
def pDigitsAcc (acc : Nat) : List Char → Nat × List Char
  | [] => (acc, [])
  | c :: rest =>
    if isDigitChar c then pDigitsAcc (acc * 10 + digitVal c) rest
    else (acc, c :: rest)

/-- Parse a natural number literal (at least one digit). -/
def pNat (input : List Char) : Option (Nat × List Char) :=
  match input with
  | [] => none
  | c :: _ => if isDigitChar c then some (pDigitsAcc 0 input) else none

/-- Parse an integer literal with optional leading minus. -/
def pInt (input : List Char) : Option (Int × List Char) :=
  match input with
  | [] => none
  | c :: rest =>
    if c = '-' then (pNat rest).map (fun p => (-(p.1 : Int), p.2))
    else (pNat (c :: rest)).map (fun p => ((p.1 : Int), p.2))

/-- Parse a quick-filter operator name. -/
def pOperator (input : List Char) : Option (FilterOperator × List Char) :=
  match pString input with
  | none => none
  | some (s, r) =>
    if s = "equals" then some (FilterOperator.equals, r)
    else if s = "contains" then some (FilterOperator.contains, r)
    else if s = "not_equals" then some (FilterOperator.not_equals, r)
    else none

/-- Parse one quick-filter object. -/
def pQuickFilter (input : List Char) : Option (QuickFilter × List Char) := do
  let r1 ← pLit litPropertyId input
  let (pid, r2) ← pString r1
  let r3 ← pLit litValue r2
  let (v, r4) ← pString r3
  let r5 ← pLit litOperator r4
  let (op, r6) ← pOperator r5
  let r7 ← pLit ['\x7d'] r6
  pure ({ propertyId := pid, value := v, operator := op }, r7)

/-- Parse the comma-separated elements of a non-empty delimited sequence up
to and including the closing delimiter; the fuel bounds the element count. -/
def pItems {α : Type} (close : Char)
    (pElem : List Char → Option (α × List Char)) :
    Nat → List Char → Option (List α × List Char)
  | 0, _ => none
  | fuel + 1, input =>
    match pElem input with
    | none => none
    | some (x, r) =>
      match r with
      | [] => none
      | c :: r2 =>
        if c = close then some ([x], r2)
        else if c = ',' then
          match pItems close pElem fuel r2 with
          | some (xs, r3) => some (x :: xs, r3)
          | none => none
        else none

/-- Parse a delimited JSON sequence (array or object). -/
def pSeq {α : Type} (openC close : Char)
    (pElem : List Char → Option (α × List Char)) (fuel : Nat)
    (input : List Char) : Option (List α × List Char) :=
  match input with
  | [] => none
  | c :: r =>
    if c = openC then
      match r with
      | [] => none
      | d :: r2 => if d = close then some ([], r2) else pItems close pElem fuel r
    else none

/-- Parse one optional object field: the value after the key-prefix literal
when the literal is present, `none` without consuming otherwise. -/
def pOptField {α : Type} (lit : List Char)
    (p : List Char → Option (α × List Char)) (input : List Char) :
    Option (Option α × List Char) :=
  match pLit lit input with
  | some r =>
    match p r with
    | some (v, r2) => some (some v, r2)
    | none => none
  | none => some (none, input)

/-- Parse one column-filters object entry. -/
def pColEntry (fuel : Nat) (input : List Char) :
    Option ((String × List String) × List Char) := do
  let (k, r1) ← pString input
  let r2 ← pLit [':'] r1
  let (vs, r3) ← pSeq '[' ']' pString fuel r2
  pure ((k, vs), r3)

/-- Parse the column-filters object. -/
def pColFilters (fuel : Nat) (input : List Char) :
    Option (List (String × List String) × List Char) :=
  pSeq '\x7b' '\x7d' (pColEntry fuel) fuel input

/-- Parse one preset object, tolerating the absent optional fields. -/
def pPreset (fuel : Nat) (input : List Char) :
    Option (FilterPreset × List Char) := do
  let r1 ← pLit litId input
  let (pid, r2) ← pString r1
  let r3 ← pLit litName r2
  let (pname, r4) ← pString r3
  let r5 ← pLit litFilters r4
  let (pfilters, r6) ← pSeq '[' ']' pQuickFilter fuel r5
  let (sq, r7) ← pOptField litSearchQuery pString r6
  let (cf, r8) ← pOptField litColumnFilters (pColFilters fuel) r7
  let (pgs, r9) ← pOptField litPageSize pInt r8
  let (cp, r10) ← pOptField litCurrentPage pInt r9
  let r11 ← pLit ['\x7d'] r10
  pure ({ id := pid, name := pname, filters := pfilters, searchQuery := sq,
          columnFilters := cf, pageSize := pgs, currentPage := cp }, r11)

/-- The model of `JSON.parse` specialized to the persisted preset schema: a
full-input parse of a preset array, `none` on any failure (the thrown
`SyntaxError` of the host parser). -/
def jsonParsePresets (s : String) : Option (List FilterPreset) :=
  match pSeq '[' ']' (pPreset (s.length + 1)) (s.length + 1) s.data with
  | some (l, []) => some l
  | _ => none

/-- Embedding of `safeJsonParse` (src/src/utils/helpers.ts lines 78–84) at
the preset-list type: the parse result, or the fallback when parsing
fails. -/
def safeJsonParse (json : String) (fallback : List FilterPreset) :
    List FilterPreset :=
  match jsonParsePresets json with
  | some v => v
  | none => fallback

/-- Embedding of `FilterService.loadPresets`: `safeJsonParse(json, [])`. -/
def loadPresets (json : String) : List FilterPreset :=
  safeJsonParse json []

/-! ### Inversion lemmas: the parser consumes exactly what the encoder
emitted -/

/-- A literal parses off the front of itself. -/
theorem pLit_append (lit rest : List Char) :
    pLit lit (lit ++ rest) = some rest := by
  induction lit with
  | nil => rfl
  | cons c cs ih => simp [pLit, ih]

/-- Hexadecimal digits decode to their values. -/
theorem pHexVal_hexDigitChar : ∀ d, d < 16 → pHexVal (hexDigitChar d) = some d := by
  decide

/-- The string-body parser inverts the stringify escaping. -/
theorem pStrBody_enc (cs : List Char) :
    ∀ rest : List Char,
      pStrBody (encStrBody cs ++ '"' :: rest) = some (cs, rest) := by
  induction cs with
  | nil =>
    intro rest
    rw [encStrBody, List.nil_append, pStrBody.eq_def]
    simp
  | cons c cs ih =>
    intro rest
    rw [encStrBody, List.append_assoc]
    unfold escChar
    by_cases h1 : c = '"'
    · subst h1; rw [if_pos rfl, pStrBody.eq_def]; simp [ih]
    · rw [if_neg h1]
      by_cases h2 : c = '\\'
      · subst h2; rw [if_pos rfl, pStrBody.eq_def]; simp [ih]
      · rw [if_neg h2]
        by_cases h3 : c = '\n'
        · subst h3; rw [if_pos rfl, pStrBody.eq_def]; simp [ih]
        · rw [if_neg h3]
          by_cases h4 : c = '\r'
          · subst h4; rw [if_pos rfl, pStrBody.eq_def]; simp [ih]
          · rw [if_neg h4]
            by_cases h5 : c = '\t'
            · subst h5; rw [if_pos rfl, pStrBody.eq_def]; simp [ih]
            · rw [if_neg h5]
              by_cases h6 : c = '\x08'
              · subst h6; rw [if_pos rfl, pStrBody.eq_def]; simp [ih]
              · rw [if_neg h6]
                by_cases h7 : c = '\x0c'
                · subst h7; rw [if_pos rfl, pStrBody.eq_def]; simp [ih]
                · rw [if_neg h7]
                  by_cases h8 : c.toNat < 32
                  · rw [if_pos h8, pStrBody.eq_def]
                    have e2 : pHexVal (hexDigitChar (c.toNat / 16))
                        = some (c.toNat / 16) :=
                      pHexVal_hexDigitChar _ (by omega)
                    have e3 : pHexVal (hexDigitChar (c.toNat % 16))
                        = some (c.toNat % 16) :=
                      pHexVal_hexDigitChar _ (by omega)
                    have hv : ((0 * 16 + 0) * 16 + c.toNat / 16) * 16
                        + c.toNat % 16 = c.toNat := by omega
                    have hval : Nat.isValidChar c.toNat := Or.inl (by omega)
                    have e1 : pHexVal '0' = some 0 := by decide
                    simp [e1, e2, e3, hv, hval, ih]
                    have hv2 : c.toNat / 16 * 16 + c.toNat % 16 = c.toNat := by
                      omega
                    rw [hv2]
                    exact ⟨hval, Char.ofNat_toNat c⟩
                  · rw [if_neg h8, List.singleton_append, pStrBody.eq_def]
                    simp [h1, h2, ih]

/-- The string parser inverts the string encoder. -/
theorem pString_enc (s : String) (rest : List Char) :
    pString (encString s ++ rest) = some (s, rest) := by
  unfold encString pString
  simp [pStrBody_enc]

/-- Is the head of the remaining input something other than a digit? -/
def headNotDigit : List Char → Bool
  | [] => true
  | c :: _ => !isDigitChar c

/-- The digit-run consumer stops at a non-digit head. -/
theorem pDigitsAcc_stop (acc : Nat) (rest : List Char)
    (h : headNotDigit rest = true) : pDigitsAcc acc rest = (acc, rest) := by
  match rest with
  | [] => rfl
  | c :: t =>
    simp only [headNotDigit, Bool.not_eq_true'] at h
    simp [pDigitsAcc, h]

/-- The digit-run consumer folds a rendered number into the accumulator. -/
theorem pDigitsAcc_natDigitsAux (fuel : Nat) :
    ∀ n acc (rest : List Char), n < fuel →
      pDigitsAcc acc (natDigitsAux fuel n ++ rest)
        = pDigitsAcc (acc * 10 ^ (natDigitsAux fuel n).length + n) rest := by
  induction fuel with
  | zero => intro n acc rest h; omega
  | succ fuel ih =>
    intro n acc rest h
    by_cases h10 : n < 10
    · simp only [natDigitsAux, if_pos h10, List.singleton_append,
        List.length_singleton, pDigitsAcc, isDigitChar_digitChar h10,
        if_pos, digitVal_digitChar h10, pow_one]
    · have hdiv : n / 10 < fuel := by
        have := Nat.div_lt_self (by omega : 0 < n) (by omega : 1 < 10)
        omega
      have hm10 : n % 10 < 10 := Nat.mod_lt _ (by omega)
      simp only [natDigitsAux, if_neg h10, List.append_assoc,
        List.singleton_append, List.length_append, List.length_singleton]
      rw [ih (n / 10) acc (digitChar (n % 10) :: rest) hdiv]
      simp only [pDigitsAcc, isDigitChar_digitChar hm10, if_pos,
        digitVal_digitChar hm10]
      have harith :
          (acc * 10 ^ (natDigitsAux fuel (n / 10)).length + n / 10) * 10
              + n % 10
            = acc * 10 ^ ((natDigitsAux fuel (n / 10)).length + 1) + n := by
        rw [pow_succ]
        have := Nat.div_add_mod n 10
        ring_nf
        omega
      rw [harith]

/-- A rendered number starts with a digit character. -/
theorem natDigitsAux_cons (fuel n : Nat) (h : n < fuel) :
    ∃ c t, natDigitsAux fuel n = c :: t ∧ isDigitChar c = true := by
  induction fuel generalizing n with
  | zero => omega
  | succ fuel ih =>
    by_cases h10 : n < 10
    · exact ⟨digitChar n, [], by simp [natDigitsAux, h10],
        isDigitChar_digitChar h10⟩
    · have hdiv : n / 10 < fuel := by
        have := Nat.div_lt_self (by omega : 0 < n) (by omega : 1 < 10)
        omega
      obtain ⟨c, t, heq, hc⟩ := ih (n / 10) hdiv
      exact ⟨c, t ++ [digitChar (n % 10)],
        by simp [natDigitsAux, h10, heq], hc⟩

/-- The natural-number parser inverts the digit rendering. -/
theorem pNat_enc (n : Nat) (rest : List Char)
    (hrest : headNotDigit rest = true) :
    pNat (natDigits n ++ rest) = some (n, rest) := by
  obtain ⟨c, t, heq, hc⟩ := natDigitsAux_cons (n + 1) n (by omega)
  unfold natDigits
  rw [heq, List.cons_append, pNat, if_pos hc, ← List.cons_append, ← heq,
    pDigitsAcc_natDigitsAux (n + 1) n 0 rest (by omega),
    pDigitsAcc_stop _ _ hrest]
  simp

/-- The integer parser inverts the integer rendering. -/
theorem pInt_enc (i : Int) (rest : List Char)
    (hrest : headNotDigit rest = true) :
    pInt (encInt i ++ rest) = some (i, rest) := by
  unfold encInt
  by_cases hneg : i < 0
  · rw [if_pos hneg, List.cons_append, pInt, if_pos rfl,
      pNat_enc i.natAbs rest hrest]
    simp only [Option.map_some']
    congr 1
    congr 1
    omega
  · rw [if_neg hneg]
    obtain ⟨c, t, heq, hc⟩ := natDigitsAux_cons (i.toNat + 1) i.toNat (by omega)
    have hcm : ¬ c = '-' := by
      intro hcon
      subst hcon
      simp [isDigitChar] at hc
    unfold natDigits at *
    rw [heq, List.cons_append, pInt, if_neg hcm, ← List.cons_append, ← heq]
    have := pNat_enc i.toNat rest hrest
    unfold natDigits at this
    rw [this]
    simp only [Option.map_some']
    congr 1
    congr 1
    omega

/-- The operator parser inverts the operator names. -/
theorem pOperator_enc (op : FilterOperator) (rest : List Char) :
    pOperator (encString (operatorName op) ++ rest) = some (op, rest) := by
  cases op <;>
    · unfold pOperator operatorName
      rw [pString_enc]
      simp

/-- The quick-filter parser inverts the quick-filter encoder. -/
theorem pQuickFilter_enc (f : QuickFilter) (rest : List Char) :
    pQuickFilter (encQuickFilter f ++ rest) = some (f, rest) := by
  unfold pQuickFilter encQuickFilter
  simp [pLit, pString_enc, pOperator_enc]

/-- Unfolding of the separated encoder at a singleton. -/
theorem encListSep_one {α : Type} (enc : α → List Char) (x : α) :
    encListSep enc [x] = enc x := rfl

/-- Unfolding of the separated encoder at two or more elements. -/
theorem encListSep_cons {α : Type} (enc : α → List Char) (x y : α)
    (ys : List α) :
    encListSep enc (x :: y :: ys) = enc x ++ ',' :: encListSep enc (y :: ys) :=
  rfl

/-- The sequence-items parser inverts the comma-separated encoder, for any
element parser that inverts the element encoder on the list's elements. -/
theorem pItems_enc {α : Type} (close : Char)
    (pElem : List Char → Option (α × List Char)) (enc : α → List Char)
    (hclose : ¬ close = ',') :
    ∀ (l : List α) (fuel : Nat) (rest : List Char),
      (∀ x ∈ l, ∀ r, pElem (enc x ++ r) = some (x, r)) →
      l ≠ [] → l.length < fuel →
      pItems close pElem fuel (encListSep enc l ++ close :: rest)
        = some (l, rest) := by
  intro l
  induction l with
  | nil => intro fuel rest _ hne _; exact absurd rfl hne
  | cons x xs ih =>
    intro fuel rest helem _ hlen
    match fuel with
    | 0 => omega
    | fuel + 1 =>
      match xs with
      | [] =>
        rw [encListSep_one, pItems, helem x (by simp) (close :: rest)]
        simp
      | y :: ys =>
        rw [encListSep_cons, List.append_assoc, List.cons_append, pItems,
          helem x (by simp) (',' :: (encListSep enc (y :: ys) ++ close :: rest))]
        simp only []
        rw [if_neg (show ¬(',' : Char) = close from fun h => hclose h.symm)]
        simp only [if_true]
        rw [ih fuel rest (fun z hz r => helem z (by simp [hz]) r)
          (List.cons_ne_nil y ys) (by simp at hlen ⊢; omega)]

/-- The sequence parser inverts the delimited-sequence encoder. -/
theorem pSeq_enc {α : Type} (openC close : Char)
    (pElem : List Char → Option (α × List Char)) (enc : α → List Char)
    (hclose : ¬ close = ',')
    (l : List α) (fuel : Nat) (rest : List Char)
    (helem : ∀ x ∈ l, ∀ r, pElem (enc x ++ r) = some (x, r))
    (hhead : ∀ x ∈ l, ∃ c t, enc x = c :: t ∧ ¬ c = close)
    (hlen : l.length < fuel) :
    pSeq openC close pElem fuel (encSeq openC close enc l ++ rest)
      = some (l, rest) := by
  match l with
  | [] =>
    unfold encSeq encListSep pSeq
    simp
  | x :: xs =>
    obtain ⟨c, t, heq, hc⟩ := hhead x (by simp)
    have hT : ∃ T, encListSep enc (x :: xs) = c :: T := by
      match xs with
      | [] => exact ⟨t, by rw [encListSep_one, heq]⟩
      | y :: ys =>
        exact ⟨t ++ ',' :: encListSep enc (y :: ys),
          by rw [encListSep_cons, heq]; simp⟩
    obtain ⟨T, hT⟩ := hT
    unfold encSeq pSeq
    rw [List.cons_append, List.append_assoc, List.singleton_append, hT,
      List.cons_append]
    simp only [if_true]
    rw [if_neg hc, ← List.cons_append, ← hT]
    exact pItems_enc close pElem enc hclose (x :: xs) fuel rest helem
      (List.cons_ne_nil x xs) hlen

/-- A present optional field parses to its value. -/
theorem pOptField_hit {α : Type} (lit : List Char)
    (p : List Char → Option (α × List Char)) (input r : List Char)
    (v : α) (r2 : List Char) (h1 : pLit lit input = some r)
    (h2 : p r = some (v, r2)) :
    pOptField lit p input = some (some v, r2) := by
  unfold pOptField
  rw [h1]
  simp only []
  rw [h2]

/-- An absent optional field parses to `none` without consuming input. -/
theorem pOptField_miss {α : Type} (lit : List Char)
    (p : List Char → Option (α × List Char)) (input : List Char)
    (h1 : pLit lit input = none) :
    pOptField lit p input = some (none, input) := by
  unfold pOptField
  rw [h1]

/-- The string encoder emits at least the two quotes. -/
theorem encString_cons (s : String) :
    ∃ t, encString s = '"' :: t := ⟨encStrBody s.data ++ ['"'], rfl⟩

/-- The column-filter entry parser inverts its encoder. -/
theorem pColEntry_enc (kv : String × List String) (fuel : Nat)
    (rest : List Char) (hlen : kv.2.length < fuel) :
    pColEntry fuel (encColFilterEntry kv ++ rest) = some (kv, rest) := by
  unfold pColEntry encColFilterEntry
  rw [List.append_assoc, List.cons_append]
  simp only [pString_enc, Option.bind_eq_bind, Option.some_bind]
  rw [show (':' :: (encSeq '[' ']' encString kv.2 ++ rest))
      = [':'] ++ (encSeq '[' ']' encString kv.2 ++ rest) from rfl,
    pLit_append]
  simp only [Option.some_bind]
  rw [pSeq_enc '[' ']' pString encString (by decide) kv.2 fuel rest
    (fun x _ r => pString_enc x r)
    (fun x _ => by
      obtain ⟨t, ht⟩ := encString_cons x
      exact ⟨'"', t, ht, by decide⟩)
    hlen]
  rfl

/-- The column-filters object parser inverts its encoder. -/
theorem pColFilters_enc (m : List (String × List String)) (fuel : Nat)
    (rest : List Char) (hm : m.length < fuel)
    (hv : ∀ kv ∈ m, kv.2.length < fuel) :
    pColFilters fuel (encColFilters m ++ rest) = some (m, rest) := by
  unfold pColFilters encColFilters
  exact pSeq_enc '\x7b' '\x7d' (pColEntry fuel) encColFilterEntry (by decide)
    m fuel rest
    (fun kv hkv r => pColEntry_enc kv fuel r (hv kv hkv))
    (fun kv _ => by
      obtain ⟨t, ht⟩ := encString_cons kv.1
      exact ⟨'"', t ++ ':' :: encSeq '[' ']' encString kv.2,
        by rw [encColFilterEntry, ht]; rfl, by decide⟩)
    hm

/-- The optional `currentPage` field parses back, present or absent, in
front of the closing brace. -/
theorem pOpt_currentPage (cp : Option Int) (rest : List Char) :
    pOptField litCurrentPage pInt
      (encOpt litCurrentPage encInt cp ++ '\x7d' :: rest)
      = some (cp, '\x7d' :: rest) := by
  cases cp with
  | none =>
    rw [encOpt, List.nil_append]
    exact pOptField_miss _ _ _ rfl
  | some v =>
    rw [encOpt, List.append_assoc]
    exact pOptField_hit _ _ _ _ v _ (pLit_append _ _) (pInt_enc v _ rfl)

/-- The optional `pageSize` field parses back in front of the encoded
`currentPage` tail. -/
theorem pOpt_pageSize (pgs cp : Option Int) (rest : List Char) :
    pOptField litPageSize pInt
      (encOpt litPageSize encInt pgs
        ++ (encOpt litCurrentPage encInt cp ++ '\x7d' :: rest))
      = some (pgs, encOpt litCurrentPage encInt cp
          ++ '\x7d' :: rest) := by
  cases pgs with
  | none =>
    rw [encOpt, List.nil_append]
    apply pOptField_miss
    cases cp with
    | none => rfl
    | some w => rw [encOpt, List.append_assoc]; rfl
  | some v =>
    rw [encOpt, List.append_assoc]
    refine pOptField_hit _ _ _ _ v _ (pLit_append _ _) (pInt_enc v _ ?_)
    cases cp with
    | none => rfl
    | some w => rw [encOpt, List.append_assoc]; rfl

/-- The optional `columnFilters` field parses back in front of the encoded
pagination tail. -/
theorem pOpt_columnFilters (cf : Option (List (String × List String)))
    (pgs cp : Option Int) (fuel : Nat) (rest : List Char)
    (hm : ∀ m, cf = some m →
      m.length < fuel ∧ ∀ kv ∈ m, kv.2.length < fuel) :
    pOptField litColumnFilters (pColFilters fuel)
      (encOpt litColumnFilters encColFilters cf
        ++ (encOpt litPageSize encInt pgs
          ++ (encOpt litCurrentPage encInt cp ++ '\x7d' :: rest)))
      = some (cf, encOpt litPageSize encInt pgs
          ++ (encOpt litCurrentPage encInt cp
            ++ '\x7d' :: rest)) := by
  cases cf with
  | none =>
    rw [encOpt, List.nil_append]
    apply pOptField_miss
    cases pgs with
    | some w => rw [encOpt, List.append_assoc]; rfl
    | none =>
      rw [encOpt, List.nil_append]
      cases cp with
      | none => rfl
      | some w => rw [encOpt, List.append_assoc]; rfl
  | some m =>
    rw [encOpt, List.append_assoc]
    exact pOptField_hit _ _ _ _ m _ (pLit_append _ _)
      (pColFilters_enc m fuel _ (hm m rfl).1 (hm m rfl).2)

/-- The optional `searchQuery` field parses back in front of the rest of the
optional fields. -/
theorem pOpt_searchQuery (sq : Option String)
    (cf : Option (List (String × List String))) (pgs cp : Option Int)
    (rest : List Char) :
    pOptField litSearchQuery pString
      (encOpt litSearchQuery encString sq
        ++ (encOpt litColumnFilters encColFilters cf
          ++ (encOpt litPageSize encInt pgs
            ++ (encOpt litCurrentPage encInt cp
              ++ '\x7d' :: rest))))
      = some (sq, encOpt litColumnFilters encColFilters cf
          ++ (encOpt litPageSize encInt pgs
            ++ (encOpt litCurrentPage encInt cp
              ++ '\x7d' :: rest))) := by
  cases sq with
  | none =>
    rw [encOpt, List.nil_append]
    apply pOptField_miss
    cases cf with
    | some m => rw [encOpt, List.append_assoc]; rfl
    | none =>
      rw [encOpt, List.nil_append]
      cases pgs with
      | some w => rw [encOpt, List.append_assoc]; rfl
      | none =>
        rw [encOpt, List.nil_append]
        cases cp with
        | none => rfl
        | some w => rw [encOpt, List.append_assoc]; rfl
  | some q =>
    rw [encOpt, List.append_assoc]
    exact pOptField_hit _ _ _ _ q _ (pLit_append _ _) (pString_enc q _)

/-- The quick-filter encoder emits an object, starting with the brace. -/
theorem encQuickFilter_cons (f : QuickFilter) :
    ∃ t, encQuickFilter f = '\x7b' :: t := ⟨_, rfl⟩

/-- The preset parser inverts the preset encoder, given fuel above the
lengths of the lists inside the preset. -/
theorem pPreset_enc (p : FilterPreset) (fuel : Nat) (rest : List Char)
    (hfil : p.filters.length < fuel)
    (hcf : ∀ m, p.columnFilters = some m →
      m.length < fuel ∧ ∀ kv ∈ m, kv.2.length < fuel) :
    pPreset fuel (encPreset p ++ rest) = some (p, rest) := by
  unfold pPreset encPreset
  repeat rw [List.append_assoc]
  rw [pLit_append]
  simp only [Option.bind_eq_bind, Option.some_bind]
  rw [pString_enc]
  simp only [Option.some_bind]
  rw [pLit_append]
  simp only [Option.some_bind]
  rw [pString_enc]
  simp only [Option.some_bind]
  rw [pLit_append]
  simp only [Option.some_bind]
  rw [pSeq_enc '[' ']' pQuickFilter encQuickFilter (by decide) p.filters fuel _
    (fun f _ r => pQuickFilter_enc f r)
    (fun f _ => by
      obtain ⟨t, ht⟩ := encQuickFilter_cons f
      exact ⟨'\x7b', t, ht, by decide⟩)
    hfil]
  simp only [Option.some_bind]
  rw [List.singleton_append]
  rw [pOpt_searchQuery p.searchQuery p.columnFilters p.pageSize p.currentPage
    rest]
  simp only [Option.some_bind]
  rw [pOpt_columnFilters p.columnFilters p.pageSize p.currentPage fuel rest hcf]
  simp only [Option.some_bind]
  rw [pOpt_pageSize p.pageSize p.currentPage rest]
  simp only [Option.some_bind]
  rw [pOpt_currentPage p.currentPage rest]
  simp only [Option.some_bind]
  rw [show ('\x7d' :: rest : List Char) = ['\x7d'] ++ rest from rfl,
    pLit_append]
  rfl

/-! ### Length bounds: the top-level fuel dominates every list inside -/

/-- String encodings are non-empty. -/
theorem one_le_length_encString (s : String) : 1 ≤ (encString s).length := by
  simp [encString]

/-- Quick-filter encodings are non-empty. -/
theorem one_le_length_encQuickFilter (f : QuickFilter) :
    1 ≤ (encQuickFilter f).length := by
  have h : litPropertyId.length = 14 := by decide
  simp only [encQuickFilter, List.length_append]
  omega

/-- Column-filter entry encodings are non-empty. -/
theorem one_le_length_encColFilterEntry (kv : String × List String) :
    1 ≤ (encColFilterEntry kv).length := by
  have h := one_le_length_encString kv.1
  simp only [encColFilterEntry, List.length_append]
  omega

/-- Preset encodings are non-empty. -/
theorem one_le_length_encPreset (p : FilterPreset) :
    1 ≤ (encPreset p).length := by
  have h : litId.length = 6 := by decide
  simp only [encPreset, List.length_append]
  omega

/-- A separated encoding is at least as long as its element count, when every
element encoding is non-empty. -/
theorem elems_le_length_encListSep {α : Type} (enc : α → List Char)
    (l : List α) (h : ∀ x ∈ l, 1 ≤ (enc x).length) :
    l.length ≤ (encListSep enc l).length := by
  induction l with
  | nil => simp [encListSep]
  | cons x xs ih =>
    match xs with
    | [] => simpa [encListSep_one] using h x (by simp)
    | y :: ys =>
      rw [encListSep_cons]
      have h1 := h x (by simp)
      have h2 := ih (fun z hz => h z (by simp [hz]))
      simp only [List.length_append, List.length_cons] at *
      omega

/-- A separated encoding is at least as long as any one element's
encoding. -/
theorem mem_le_length_encListSep {α : Type} (enc : α → List Char)
    (l : List α) (x : α) (hx : x ∈ l) :
    (enc x).length ≤ (encListSep enc l).length := by
  induction l with
  | nil => simp at hx
  | cons y ys ih =>
    match ys with
    | [] =>
      rw [List.mem_singleton] at hx
      subst hx
      rw [encListSep_one]
    | z :: zs =>
      rw [encListSep_cons]
      simp only [List.length_append, List.length_cons]
      rcases List.mem_cons.1 hx with rfl | hx2
      · omega
      · have := ih hx2
        omega

/-- The filters array is part of the preset encoding. -/
theorem filters_part_le_length_encPreset (p : FilterPreset) :
    (encSeq '[' ']' encQuickFilter p.filters).length
      ≤ (encPreset p).length := by
  simp only [encPreset, List.length_append]
  omega

/-- The column-filters object, when present, is part of the preset
encoding. -/
theorem colFilters_part_le_length_encPreset (p : FilterPreset)
    (m : List (String × List String)) (hm : p.columnFilters = some m) :
    (encColFilters m).length ≤ (encPreset p).length := by
  simp only [encPreset, hm, encOpt, List.length_append]
  omega

/-- A member value-list of the column filters is bounded by the object's
encoding length. -/
theorem values_le_length_encColFilters (m : List (String × List String))
    (kv : String × List String) (hkv : kv ∈ m) :
    kv.2.length ≤ (encColFilters m).length := by
  have h1 : kv.2.length ≤ (encSeq '[' ']' encString kv.2).length := by
    have := elems_le_length_encListSep encString kv.2
      (fun s _ => one_le_length_encString s)
    simp only [encSeq, List.length_cons, List.length_append]
    omega
  have h2 : (encSeq '[' ']' encString kv.2).length
      ≤ (encColFilterEntry kv).length := by
    simp only [encColFilterEntry, List.length_append, List.length_cons]
    omega
  have h3 : (encColFilterEntry kv).length ≤ (encColFilters m).length := by
    have := mem_le_length_encListSep encColFilterEntry m kv hkv
    simp only [encColFilters, encSeq, List.length_cons, List.length_append]
    omega
  omega

/-- C5: parsing the serialized preset list yields the same list:
`loadPresets (savePresetsToJson presets) = presets` for every preset list. -/
theorem loadPresets_savePresetsToJson (l : List FilterPreset) :
    loadPresets (savePresetsToJson l) = l := by
  unfold loadPresets safeJsonParse jsonParsePresets savePresetsToJson
  have hslen : (String.mk (encSeq '[' ']' encPreset l)).length
      = (encSeq '[' ']' encPreset l).length := rfl
  have hseqlen : (encSeq '[' ']' encPreset l).length
      = (encListSep encPreset l).length + 2 := by
    simp [encSeq]
  have hmem : ∀ p ∈ l, (encPreset p).length
      < (String.mk (encSeq '[' ']' encPreset l)).length + 1 := by
    intro p hp
    have := mem_le_length_encListSep encPreset l p hp
    omega
  have hfilters : ∀ p ∈ l, p.filters.length
      < (String.mk (encSeq '[' ']' encPreset l)).length + 1 := by
    intro p hp
    have h1 := elems_le_length_encListSep encQuickFilter p.filters
      (fun f _ => one_le_length_encQuickFilter f)
    have h2 : (encListSep encQuickFilter p.filters).length
        ≤ (encSeq '[' ']' encQuickFilter p.filters).length := by
      simp only [encSeq, List.length_cons, List.length_append]
      omega
    have h3 := filters_part_le_length_encPreset p
    have h4 := hmem p hp
    omega
  have hcf : ∀ p ∈ l, ∀ m, p.columnFilters = some m →
      m.length < (String.mk (encSeq '[' ']' encPreset l)).length + 1 ∧
        ∀ kv ∈ m, kv.2.length
          < (String.mk (encSeq '[' ']' encPreset l)).length + 1 := by
    intro p hp m hm
    have hcolpart := colFilters_part_le_length_encPreset p m hm
    have h4 := hmem p hp
    constructor
    · have h1 := elems_le_length_encListSep encColFilterEntry m
        (fun kv _ => one_le_length_encColFilterEntry kv)
      have h2 : (encListSep encColFilterEntry m).length
          ≤ (encColFilters m).length := by
        simp only [encColFilters, encSeq, List.length_cons, List.length_append]
        omega
      omega
    · intro kv hkv
      have h1 := values_le_length_encColFilters m kv hkv
      omega
  have hlen : l.length
      < (String.mk (encSeq '[' ']' encPreset l)).length + 1 := by
    have := elems_le_length_encListSep encPreset l
      (fun p _ => one_le_length_encPreset p)
    omega
  have hmain := pSeq_enc '[' ']'
    (pPreset ((String.mk (encSeq '[' ']' encPreset l)).length + 1)) encPreset
    (by decide) l ((String.mk (encSeq '[' ']' encPreset l)).length + 1) []
    (fun p hp r => pPreset_enc p _ r (hfilters p hp) (hcf p hp))
    (fun p _ => ⟨'\x7b', _, rfl, by decide⟩)
    hlen
  rw [List.append_nil] at hmain
  have hdata : (String.mk (encSeq '[' ']' encPreset l)).data
      = encSeq '[' ']' encPreset l := rfl
  rw [hdata, hmain]

/-- C7: `loadPresets` is a total function of the input string (the model of
`safeJsonParse`'s `try`/`catch`): a string the parser rejects loads as the
empty preset list, and a string it accepts loads as its parse. -/
theorem loadPresets_failsoft (s : String) :
    (jsonParsePresets s = none → loadPresets s = []) ∧
      (∀ l, jsonParsePresets s = some l → loadPresets s = l) := by
  refine ⟨fun h => ?_, fun l h => ?_⟩ <;>
    · unfold loadPresets safeJsonParse
      rw [h]

/-- Witness for C7: the malformed strings `"not json"` and `"["` load as the
empty preset list. -/
theorem loadPresets_failsoft_witness :
    loadPresets "not json" = [] ∧ loadPresets "[" = [] :=
  ⟨(loadPresets_failsoft "not json").1 rfl, (loadPresets_failsoft "[").1 rfl⟩

end BasesPaginator
